import Mathlib

/-!
Verification of the chunking / indexing / vector-retrieval engine of the
`buscarendrive` service (source: `src/unnamed/part_002`).

Modelling conventions:
* JS numbers are real numbers (`ℝ`); machine floats' rounding is out of scope.
* JS strings carrying document text are `List Char`; identifier-like strings
  (file ids, names, links, timestamps-as-metadata) are `String`.
* The external collaborators (Drive listing, Docs export, Vertex embedding,
  intent analysis) are oracles recorded in an `Env`: each call's outcome is a
  value of `Except String _` fixed in the environment.
* An uncaught JS exception is an `.error` result; mutable module state
  (`store`, `isIndexing`) is threaded explicitly as `ServerState`.
-/

namespace ServiceGcp

/-! ### Configuration constants (part_002, lines 26-37) -/

def CHUNK_SIZE : Nat := 1100
def CHUNK_OVERLAP : Nat := 150
def MAX_TEXT_CHARS_PER_FILE : Nat := 140000
def TOPK_CHUNKS : Nat := 36
def TOPK_DOCS : Nat := 12
noncomputable def DEFAULT_MIN_SIMILARITY : ℝ := 0.72
def INDEX_TTL_MINUTES : Nat := 120
def AUTO_REINDEX_ON_EMPTY : Bool := true

/-! ### Whitespace normalisation and chunking (lines 246-261) -/

/-- JS `\s` whitespace, restricted to its ASCII members, as used by
`replace(/\s+/g, " ")` and `String.prototype.trim`. -/
def isWs (c : Char) : Bool :=
  c = ' ' || c = '\t' || c = '\n' || c = '\r' || c = '\x0b' || c = '\x0c'

/-- Worker for `replace(/\s+/g, " ")`: each maximal whitespace run becomes a
single space.  The flag records whether the previous character was whitespace. -/
def collapseWsAux : Bool → List Char → List Char
  | _, [] => []
  | prevWs, c :: rest =>
    if isWs c then
      if prevWs then collapseWsAux true rest
      else ' ' :: collapseWsAux true rest
    else c :: collapseWsAux false rest

/-- `text.replace(/\s+/g, " ")` (line 247). -/
def collapseWs (l : List Char) : List Char := collapseWsAux false l

/-- `String.prototype.trim` (line 247): drop leading and trailing whitespace. -/
def jsTrim (l : List Char) : List Char :=
  ((l.dropWhile isWs).reverse.dropWhile isWs).reverse

/-- `s.slice(start, stop)` on a JS string, for `0 ≤ start ≤ stop`. -/
def jsSlice (l : List Char) (s e : Nat) : List Char := (l.take e).drop s

/-- The `while` loop of `chunkText` (lines 252-259), `start` being the cursor:
`end = min(start + CHUNK_SIZE, len)`; the trimmed slice is pushed when nonempty;
the loop stops when `end` reaches the end, else restarts at `end - CHUNK_OVERLAP`. -/
def chunkTextLoop (clipped : List Char) (start : Nat) : List (List Char) :=
  if start < clipped.length then
    let piece := jsTrim (jsSlice clipped start (min (start + CHUNK_SIZE) clipped.length))
    let pushed := if piece.isEmpty then [] else [piece]
    if clipped.length ≤ min (start + CHUNK_SIZE) clipped.length then pushed
    else pushed ++ chunkTextLoop clipped (max 0 (min (start + CHUNK_SIZE) clipped.length - CHUNK_OVERLAP))
  else []
termination_by clipped.length - start
decreasing_by simp only [CHUNK_SIZE, CHUNK_OVERLAP] at *; omega

/-- `chunkText` (lines 246-261): normalise whitespace, trim, return no chunks on
empty text, clip to `MAX_TEXT_CHARS_PER_FILE`, then run the sliding window. -/
def chunkText (text : List Char) : List (List Char) :=
  let t := jsTrim (collapseWs text)
  if t.isEmpty then []
  else chunkTextLoop (t.take MAX_TEXT_CHARS_PER_FILE) 0

/-! ### Cosine similarity (lines 279-291) -/

/-- The `dot` accumulator of `VectorStore.cosine`: the loop runs over the
compared prefix of length `min |a| |b|`, which `List.zip` produces. -/
def dotPrefix (a b : List ℝ) : ℝ := ((a.zip b).map fun p => p.1 * p.2).sum

/-- The `na` accumulator of `VectorStore.cosine` (squared norm of `a` over the
compared prefix). -/
def normSqA (a b : List ℝ) : ℝ := ((a.zip b).map fun p => p.1 * p.1).sum

/-- The `nb` accumulator of `VectorStore.cosine` (squared norm of `b` over the
compared prefix). -/
def normSqB (a b : List ℝ) : ℝ := ((a.zip b).map fun p => p.2 * p.2).sum

/-- `VectorStore.cosine` (lines 279-291): `denom ? dot / denom : 0` — a guarded
division returning `0` when the denominator is zero. -/
noncomputable def cosine (a b : List ℝ) : ℝ :=
  if Real.sqrt (normSqA a b) * Real.sqrt (normSqB a b) = 0 then 0
  else dotPrefix a b / (Real.sqrt (normSqA a b) * Real.sqrt (normSqB a b))

/-! ### Data model -/

/-- A chunk record pushed into `store.items` (lines 343-351). -/
structure Item where
  chunkId : String
  fileId : String
  fileName : String
  webViewLink : String
  modifiedTime : String
  text : List Char
  vector : List ℝ

/-- A chunk record extended with its similarity (`{...it, similarity}`, line 294-297). -/
structure ScoredChunk where
  item : Item
  similarity : ℝ

/-- The `VectorStore` instance state (lines 268-272): `items` and `indexedAt`.
`indexedAt` is the install time in epoch milliseconds (`nowIso()` abstracted). -/
structure VectorStore where
  items : List Item
  indexedAt : Option Nat

/-- Comparator of `scored.sort((x, y) => y.similarity - x.similarity)` (line 298):
descending similarity.  JS array sort is stable, which `insertionSort` models. -/
def simDesc (x y : ScoredChunk) : Prop := y.similarity ≤ x.similarity

noncomputable instance : DecidableRel simDesc := fun _ _ => Real.decidableLE _ _

instance : IsTotal ScoredChunk simDesc := ⟨fun x y => le_total y.similarity x.similarity⟩

instance : IsTrans ScoredChunk simDesc := ⟨fun _ _ _ h1 h2 => le_trans h2 h1⟩

/-- `VectorStore.search` (lines 293-300): score every item, sort descending by
similarity (stable), truncate to `topK`. -/
noncomputable def VectorStore.search (st : VectorStore) (queryVec : List ℝ) (topK : Nat) :
    List ScoredChunk :=
  (List.insertionSort simDesc
    (st.items.map fun it => ⟨it, cosine queryVec it.vector⟩)).take topK

/-! ### Document aggregation (`semanticSearch`, lines 383-414) -/

/-- An entry of the `byDoc` map (lines 387-394). -/
structure DocEntry where
  id : String
  name : String
  webViewLink : String
  modifiedTime : String
  score : ℝ
  bestSnippet : List Char

/-- The entry created on first sight of a document (lines 387-394). -/
def mkDocEntry (c : ScoredChunk) : DocEntry :=
  ⟨c.item.fileId, c.item.fileName, c.item.webViewLink, c.item.modifiedTime,
   c.similarity, c.item.text.take 260⟩

/-- One step of the `byDoc` aggregation (lines 384-401).  A JS `Map` preserves
insertion order, so it is modelled as a list of entries updated in place; the
score and snippet are replaced only on strictly greater similarity (line 396). -/
noncomputable def insertChunk : List DocEntry → ScoredChunk → List DocEntry
  | [], c => [mkDocEntry c]
  | d :: ds, c =>
    if d.id = c.item.fileId then
      (if d.score < c.similarity then
        { d with score := c.similarity, bestSnippet := c.item.text.take 260 }
       else d) :: ds
    else d :: insertChunk ds c

/-- `byDoc` built by the `for` loop over `topChunks` (lines 383-401), read back
in insertion order (`[...byDoc.values()]`, line 403). -/
noncomputable def aggregateDocs (topChunks : List ScoredChunk) : List DocEntry :=
  topChunks.foldl insertChunk []

/-- Comparator of `docs.sort((a, b) => b.score - a.score)` (line 403). -/
def scoreDesc (a b : DocEntry) : Prop := b.score ≤ a.score

noncomputable instance : DecidableRel scoreDesc := fun _ _ => Real.decidableLE _ _

instance : IsTotal DocEntry scoreDesc := ⟨fun x y => le_total y.score x.score⟩

instance : IsTrans DocEntry scoreDesc := ⟨fun _ _ _ h1 h2 => le_trans h2 h1⟩

/-- The sorted per-document list `docs` (line 403). -/
noncomputable def sortedDocs (topChunks : List ScoredChunk) : List DocEntry :=
  List.insertionSort scoreDesc (aggregateDocs topChunks)

/-- `Number(x.toFixed(4))` (line 413): round to 4 decimal places. -/
noncomputable def round4 (x : ℝ) : ℝ := (round (x * 10000) : ℤ) / 10000

/-- An element of the returned `archivos` array (lines 408-414). -/
structure Archivo where
  id : String
  name : String
  webViewLink : String
  modifiedTime : String
  score : ℝ

/-- The `.map` body of lines 408-414: project the entry, rounding the score. -/
noncomputable def toArchivo (d : DocEntry) : Archivo :=
  ⟨d.id, d.name, d.webViewLink, d.modifiedTime, round4 d.score⟩

/-- Lines 405-414: filter on the raw aggregated score, truncate to `TOPK_DOCS`,
then project (rounding the reported score). -/
noncomputable def archivosOf (docsList : List DocEntry) (minSimilarity : ℝ) : List Archivo :=
  ((docsList.filter fun d => decide (minSimilarity ≤ d.score)).take TOPK_DOCS).map toArchivo

/-- The pure retrieval pipeline of `semanticSearch` after the query has been
embedded (lines 381-414). -/
noncomputable def retrieve (st : VectorStore) (qVec : List ℝ) (minSimilarity : ℝ) :
    List Archivo :=
  archivosOf (sortedDocs (st.search qVec TOPK_CHUNKS)) minSimilarity

/-! ### Index builder (`buildIndex`, lines 317-372) -/

/-- A Drive file record as returned by the listing (line 201). -/
structure DriveFile where
  id : String
  name : String
  webViewLink : String
  modifiedTime : String

/-- The mutable module state: `store` (line 303) and `isIndexing` (line 304). -/
structure ServerState where
  store : VectorStore
  isIndexing : Bool

/-- The result of `analyzeIntentAndRewrite` (lines 104-165).  That function
catches every provider error internally and falls back, so its outcome is a
plain value, never an exception. -/
structure IntentResult where
  shouldSearch : Bool
  rewrittenQuery : List Char
  minSimilarity : Option ℝ

/-- The environment of one pass: configuration plus the recorded outcome of
every external-collaborator call (Drive listing, Docs text export, Vertex
embedding, intent analysis) and the current clock. -/
structure Env where
  rootFolderId : Option String
  hasEmbeddingModel : Bool
  listFiles : Except String (List DriveFile)
  extractText : DriveFile → Except String (List Char)
  embed : List Char → Except String (List ℝ)
  intent : IntentResult
  now : Nat

/-- `embedText` (lines 172-188): throws when the embedding model is not
initialised, otherwise the provider call's outcome (which may itself fail,
e.g. `embedding_not_found_in_response`). -/
def embedText (env : Env) (text : List Char) : Except String (List ℝ) :=
  if env.hasEmbeddingModel then env.embed text
  else .error "embedding_model_not_initialized"

/-- The `stats` object of a completed build (lines 363-370). -/
structure BuildStats where
  totalFiles : Nat
  indexedFiles : Nat
  skippedNoText : Nat
  totalChunks : Nat

/-- A non-throwing `buildIndex` outcome: the `indexing_in_progress` note
(line 321) or a completed build with stats (lines 361-371). -/
inductive BuildOk where
  | inProgress (indexedAt : Option Nat)
  | built (stats : BuildStats)

/-- The inner chunk loop of `buildIndex` (lines 341-353): embed chunk `i`,
producing the item with `chunkId = fileId::i`; an embedding failure is an
uncaught exception aborting the whole pass. -/
def embedChunks (env : Env) (f : DriveFile) : List (List Char) → Nat → Except String (List Item)
  | [], _ => .ok []
  | c :: cs, i =>
    match embedText env c with
    | .error e => .error e
    | .ok vec =>
      match embedChunks env f cs (i + 1) with
      | .error e => .error e
      | .ok rest =>
        .ok (⟨f.id ++ "::" ++ toString i, f.id, f.name, f.webViewLink, f.modifiedTime,
              c, vec⟩ :: rest)

/-- The per-file loop of `buildIndex` (lines 332-355): text extraction failure
is caught and treated as empty text (line 333); zero chunks increments
`skippedNoText`; an embedding failure aborts everything.  Returns
`(newItems, indexedFiles, skippedNoText, totalChunks)`. -/
def buildLoop (env : Env) : List DriveFile → Except String (List Item × Nat × Nat × Nat)
  | [] => .ok ([], 0, 0, 0)
  | f :: rest =>
    let text := match env.extractText f with | .ok t => t | .error _ => []
    let chunks := chunkText text
    if chunks.length = 0 then
      match buildLoop env rest with
      | .error e => .error e
      | .ok (items, nIdx, nSkip, nCh) => .ok (items, nIdx, nSkip + 1, nCh)
    else
      match embedChunks env f chunks 0 with
      | .error e => .error e
      | .ok fItems =>
        match buildLoop env rest with
        | .error e => .error e
        | .ok (items, nIdx, nSkip, nCh) =>
          .ok (fItems ++ items, nIdx + 1, nSkip, nCh + chunks.length)

/-- `buildIndex` (lines 317-372).  The first component is the function's
outcome (an uncaught exception being `.error`), the second the module state
when control leaves the function.  Note that `isIndexing` is set before the
fallible work and only cleared on the success path (lines 322, 359). -/
def buildIndex (env : Env) (st : ServerState) : Except String BuildOk × ServerState :=
  if env.rootFolderId = none then (.error "missing_ROOT_FOLDER_ID", st)
  else if env.hasEmbeddingModel = false then (.error "embedding_model_not_initialized", st)
  else if st.isIndexing then (.ok (.inProgress st.store.indexedAt), st)
  else
    let st1 : ServerState := { st with isIndexing := true }
    match env.listFiles with
    | .error e => (.error e, st1)
    | .ok files =>
      match buildLoop env files with
      | .error e => (.error e, st1)
      | .ok (newItems, nIdx, nSkip, nCh) =>
        (.ok (.built ⟨files.length, nIdx, nSkip, nCh⟩),
         { store := { items := newItems, indexedAt := some env.now }, isIndexing := false })

/-! ### Semantic search and the request handler (lines 379-428, 460-541) -/

/-- The part of `semanticSearch`'s return value the claims are about. -/
structure SearchResult where
  archivos : List Archivo
  indexedAt : Option Nat

/-- `semanticSearch` (lines 379-428): embed the query (which may throw), then
run the pure retrieval pipeline on the store. -/
noncomputable def semanticSearch (env : Env) (st : VectorStore) (userQuery : List Char)
    (minSimilarity : ℝ) : Except String SearchResult :=
  match embedText env userQuery with
  | .error e => .error e
  | .ok qVec => .ok ⟨retrieve st qVec minSimilarity, st.indexedAt⟩

/-- `indexExpired` (lines 306-310). -/
def indexExpired (st : VectorStore) (now : Nat) : Bool :=
  match st.indexedAt with
  | none => true
  | some t => decide (INDEX_TTL_MINUTES * 60 * 1000 < now - t)

/-- The threshold clamp of lines 498-500. -/
noncomputable def resolveMinSim (intent : IntentResult) : ℝ :=
  match intent.minSimilarity with
  | some m => min 0.85 (max 0.60 m)
  | none => DEFAULT_MIN_SIMILARITY

/-- The lazy-reindex step (lines 503-507): a failed `buildIndex` is caught and
its error swallowed, but every state mutation it performed is kept. -/
def afterAutoReindex (env : Env) (st : ServerState) : ServerState :=
  if (st.store.items.length == 0 || indexExpired st.store env.now)
      && AUTO_REINDEX_ON_EMPTY then
    (buildIndex env st).2
  else st

/-- The responses of `app.post("/")` that the claims distinguish. -/
inductive Response where
  | badRequest
  | okEmpty (reason : String)
  | okResults (archivos : List Archivo)
  | internalError

/-- The HTTP status of each response shape (lines 464, 539, else 200). -/
def Response.status : Response → Nat
  | .badRequest => 400
  | .internalError => 500
  | _ => 200

/-- The main handler `app.post("/")` (lines 460-541).  `query = none` models a
missing or non-string `query` field; the empty string is falsy in JS and is
also rejected with 400 (line 463).  The final `catch` (lines 537-540) turns
any exception escaping `semanticSearch` into a 500. -/
noncomputable def handlePost (env : Env) (st : ServerState) (query : Option (List Char)) :
    Response × ServerState :=
  match query with
  | none => (.badRequest, st)
  | some q =>
    if q.isEmpty then (.badRequest, st)
    else if env.rootFolderId = none then (.okEmpty "root_missing", st)
    else
      let intent := env.intent
      if intent.shouldSearch = false then (.okEmpty "no_search_intent", st)
      else
        let rewritten := if intent.rewrittenQuery.isEmpty then jsTrim q
                         else intent.rewrittenQuery
        let minSim := resolveMinSim intent
        let st2 := afterAutoReindex env st
        if st2.store.items.length == 0 then (.okEmpty "empty_index", st2)
        else
          match semanticSearch env st2.store rewritten minSim with
          | .error _ => (.internalError, st2)
          | .ok r => (.okResults r.archivos, st2)

/-! ### Concrete fixtures used by witnesses and counterexamples -/

/-- A Drive file whose text will embed successfully or not, per environment. -/
def fileA : DriveFile := ⟨"A", "docA", "urlA", "t0"⟩

/-- A second Drive file, used to show that later files are not indexed when an
earlier embedding fails. -/
def fileB : DriveFile := ⟨"B", "docB", "urlB", "t0"⟩

/-- An intent outcome that asks for a search and suggests no threshold. -/
def intentSearch : IntentResult := ⟨true, "consulta".data, none⟩

/-- Fresh server state: empty store, not indexing. -/
def stEmpty : ServerState := ⟨⟨[], none⟩, false⟩

/-- An environment whose Drive listing fails. -/
def envListFail : Env :=
  ⟨some "root", true, .error "boom", fun _ => .ok [], fun _ => .ok [], intentSearch, 0⟩

/-- An environment listing two readable files whose embedding provider always
fails with a malformed response. -/
def envEmbedFail : Env :=
  ⟨some "root", true, .ok [fileA, fileB], fun _ => .ok "hola".data,
   fun _ => .error "embedding_not_found_in_response", intentSearch, 0⟩

/-- A unit-vector item used by the retrieval witnesses. -/
noncomputable def itemU : Item := ⟨"A::0", "A", "docA", "urlA", "t0", "hola".data, [1, 0]⟩

/-- A one-item store whose single chunk matches the query `[1, 0]` exactly. -/
noncomputable def storeU : VectorStore := ⟨[itemU], some 0⟩

/-- The document entry the aggregation produces for `storeU`. -/
noncomputable def entryU : DocEntry := ⟨"A", "docA", "urlA", "t0", 1, "hola".data⟩

/-- An item whose vector `[5, 12]` has cosine `63/65` against the query
`[3, 4]` — a score with more than four decimal places. -/
noncomputable def item512 : Item := ⟨"B::0", "B", "docB", "urlB", "t1", "tema".data, [5, 12]⟩

/-- A one-item store realising the score `63/65`. -/
noncomputable def store512 : VectorStore := ⟨[item512], some 0⟩

/-- The document entry the aggregation produces for `store512`. -/
noncomputable def entry512 : DocEntry := ⟨"B", "docB", "urlB", "t1", 63/65, "tema".data⟩

/-- No two adjacent whitespace characters — the shape `replace(/\s+/g, " ")`
guarantees, used to show every window of length ≥ 2 trims to a nonempty piece. -/
def NoAdjWs (l : List Char) : Prop :=
  l.Chain' fun a b => ¬(isWs a = true ∧ isWs b = true)

/-- Modelled from the spec (§4.1): the same sliding-window loop as
`chunkTextLoop` but with `chunkSize` and `overlap` as configuration parameters
and explicit fuel — `none` means the loop has not terminated within `fuel`
iterations.  The spec discusses arbitrary `(chunkSize, overlap)`
configurations, which the source hard-codes. -/
def chunkLoopCfg (chunkSize overlap : Nat) (clipped : List Char) :
    Nat → Nat → Option (List (List Char))
  | _, 0 => none
  | start, fuel + 1 =>
    if start < clipped.length then
      let piece := jsTrim (jsSlice clipped start (min (start + chunkSize) clipped.length))
      let pushed := if piece.isEmpty then [] else [piece]
      if clipped.length ≤ min (start + chunkSize) clipped.length then some pushed
      else
        match chunkLoopCfg chunkSize overlap clipped
            (max 0 (min (start + chunkSize) clipped.length - overlap)) fuel with
        | none => none
        | some rest => some (pushed ++ rest)
    else some []

/-! ### Helper lemmas: trimming -/

theorem dropWhile_idem (p : Char → Bool) (l : List Char) :
    (l.dropWhile p).dropWhile p = l.dropWhile p := by
  induction l with
  | nil => rfl
  | cons c t ih =>
    by_cases hc : p c
    · simp [List.dropWhile, hc, ih]
    · simp [List.dropWhile, hc]

theorem dropWhile_eq_self_of_isPrefix (p : Char → Bool) {l l' : List Char}
    (h : l.dropWhile p = l) (hpre : l' <+: l) : l'.dropWhile p = l' := by
  cases l' with
  | nil => rfl
  | cons c t =>
    obtain ⟨s, hs⟩ := hpre
    subst hs
    by_cases hc : p c
    · exfalso
      have hlen := congrArg List.length h
      simp [List.dropWhile, hc, List.length_append] at hlen
      have hle := (List.dropWhile_suffix (l := t ++ s) p).sublist.length_le
      simp [List.length_append] at hle
      omega
    · simp [List.dropWhile, hc]

theorem jsTrim_idem (l : List Char) : jsTrim (jsTrim l) = jsTrim l := by
  unfold jsTrim
  have hA : (l.dropWhile isWs).dropWhile isWs = l.dropWhile isWs := dropWhile_idem _ _
  set A := l.dropWhile isWs with hAdef
  set u := A.reverse.dropWhile isWs with hudef
  have hu : u <:+ A.reverse := List.dropWhile_suffix _
  have hur : u.reverse <+: A := by
    have := List.reverse_prefix.mpr hu
    simpa using this
  have h1 : u.reverse.dropWhile isWs = u.reverse :=
    dropWhile_eq_self_of_isPrefix isWs hA hur
  have h2 : u.dropWhile isWs = u := by rw [hudef]; exact dropWhile_idem _ _
  rw [h1]
  simp [h2]

theorem jsTrim_eq_nil_iff (l : List Char) : jsTrim l = [] ↔ ∀ c ∈ l, isWs c := by
  unfold jsTrim
  constructor
  · intro h c hc
    have h1 : (l.dropWhile isWs).reverse.dropWhile isWs = [] := by
      have := congrArg List.reverse h
      simpa using this
    rw [List.dropWhile_eq_nil_iff] at h1
    have h2 : l.dropWhile isWs = [] := by
      cases hA : l.dropWhile isWs with
      | nil => rfl
      | cons a t =>
        exfalso
        have hhead : isWs a = false := by
          have := List.head_dropWhile_not isWs l (by simp [hA])
          simpa [hA] using this
        have := h1 a (by simp [hA])
        simp [hhead] at this
    rw [List.dropWhile_eq_nil_iff] at h2
    exact h2 c hc
  · intro h
    have h2 : l.dropWhile isWs = [] := List.dropWhile_eq_nil_iff.mpr h
    simp [h2]

/-! ### Helper lemmas: cosine -/

theorem normSqA_nonneg (a b : List ℝ) : 0 ≤ normSqA a b := by
  apply List.sum_nonneg
  intro x hx
  obtain ⟨p, _, rfl⟩ := List.mem_map.mp hx
  exact mul_self_nonneg _

theorem normSqB_nonneg (a b : List ℝ) : 0 ≤ normSqB a b := by
  apply List.sum_nonneg
  intro x hx
  obtain ⟨p, _, rfl⟩ := List.mem_map.mp hx
  exact mul_self_nonneg _

/-- Claim C7: the index's cosine similarity is a guarded division: it is `0`
whenever either compared-prefix norm is zero (never NaN, never an error — the
function is total), and otherwise equals the dot product divided by the
product of the two norms. -/
theorem cosine_guarded (a b : List ℝ) :
    (normSqA a b = 0 ∨ normSqB a b = 0 → cosine a b = 0) ∧
    (normSqA a b ≠ 0 → normSqB a b ≠ 0 →
      cosine a b = dotPrefix a b / (Real.sqrt (normSqA a b) * Real.sqrt (normSqB a b))) := by
  constructor
  · intro h
    unfold cosine
    rcases h with h | h
    · rw [if_pos]
      rw [h, Real.sqrt_zero, zero_mul]
    · rw [if_pos]
      rw [h, Real.sqrt_zero, mul_zero]
  · intro ha hb
    unfold cosine
    rw [if_neg]
    intro hcon
    rcases mul_eq_zero.mp hcon with h | h
    · exact ha ((Real.sqrt_eq_zero (normSqA_nonneg a b)).mp h)
    · exact hb ((Real.sqrt_eq_zero (normSqB_nonneg a b)).mp h)

/-- Witness for C7: a zero vector gets similarity `0`, and two equal unit
vectors get similarity `1 = dot / (1 * 1)`. -/
theorem cosine_guarded_witness :
    cosine [(0 : ℝ)] [1] = 0 ∧ cosine [(1 : ℝ)] [1] = 1 := by
  constructor
  · exact (cosine_guarded [0] [1]).1 (Or.inl (by norm_num [normSqA]))
  · have h := (cosine_guarded [1] [1]).2 (by norm_num [normSqA]) (by norm_num [normSqB])
    rw [h]
    norm_num [dotPrefix, normSqA, normSqB]

/-! ### C2 and C9: build atomicity and the stuck flag -/

/-- Claim C2: a `buildIndex` call that terminates with an error leaves the
previously installed snapshot (`store.items`, `store.indexedAt`) exactly as it
was; only a run-to-completion build replaces the snapshot, and it replaces it
in its entirety with this pass's items and timestamp. -/
theorem buildIndex_snapshot_atomic (env : Env) (st : ServerState)
    (r : Except String BuildOk) (st' : ServerState)
    (h : buildIndex env st = (r, st')) :
    (∀ e, r = .error e →
      st'.store.items = st.store.items ∧ st'.store.indexedAt = st.store.indexedAt) ∧
    (∀ stats, r = .ok (.built stats) →
      ∃ files newItems nIdx nSkip nCh,
        env.listFiles = .ok files ∧
        buildLoop env files = .ok (newItems, nIdx, nSkip, nCh) ∧
        st'.store.items = newItems ∧ st'.store.indexedAt = some env.now) := by
  by_cases h1 : env.rootFolderId = none
  · simp only [buildIndex, if_pos h1] at h
    cases h
    exact ⟨fun e _ => ⟨rfl, rfl⟩, fun stats hs => by cases hs⟩
  by_cases h2 : env.hasEmbeddingModel = false
  · simp only [buildIndex, if_neg h1, if_pos h2] at h
    cases h
    exact ⟨fun e _ => ⟨rfl, rfl⟩, fun stats hs => by cases hs⟩
  by_cases h3 : st.isIndexing = true
  · simp only [buildIndex, if_neg h1, if_neg h2, if_pos h3] at h
    cases h
    exact ⟨fun e he => (by cases he), fun stats hs => by cases hs⟩
  rcases hl : env.listFiles with e0 | files
  · simp only [buildIndex, if_neg h1, if_neg h2, if_neg h3, hl] at h
    cases h
    exact ⟨fun e _ => ⟨rfl, rfl⟩, fun stats hs => by cases hs⟩
  rcases hb : buildLoop env files with e1 | ⟨newItems, nIdx, nSkip, nCh⟩
  · simp only [buildIndex, if_neg h1, if_neg h2, if_neg h3, hl, hb] at h
    cases h
    exact ⟨fun e _ => ⟨rfl, rfl⟩, fun stats hs => by cases hs⟩
  · simp only [buildIndex, if_neg h1, if_neg h2, if_neg h3, hl, hb] at h
    cases h
    refine ⟨fun e he => (by cases he), fun stats _ => ?_⟩
    exact ⟨files, newItems, nIdx, nSkip, nCh, rfl, hb, rfl, rfl⟩

/-- Witness for C2: a failed listing leaves the (empty) snapshot untouched. -/
theorem buildIndex_snapshot_atomic_witness :
    (⟨⟨[], none⟩, true⟩ : ServerState).store.items = stEmpty.store.items ∧
    (⟨⟨[], none⟩, true⟩ : ServerState).store.indexedAt = stEmpty.store.indexedAt :=
  (buildIndex_snapshot_atomic envListFail stEmpty (.error "boom")
    ⟨⟨[], none⟩, true⟩ rfl).1 "boom" rfl

/-- Claim C9: once a `buildIndex` call passes the single-flight check (setting
`isIndexing`) and then terminates with an error, the flag is left set, and
every subsequent `buildIndex` call (with the root folder and embedding model
still configured) returns the `indexing_in_progress` note, touching neither
the Drive listing nor the store — no later rebuild runs to completion. -/
theorem buildIndex_flag_leak (env : Env) (st : ServerState) (e : String)
    (st' : ServerState)
    (hroot : env.rootFolderId ≠ none) (hmodel : env.hasEmbeddingModel = true)
    (hidle : st.isIndexing = false)
    (h : buildIndex env st = (.error e, st')) :
    st'.isIndexing = true ∧
    ∀ env2 : Env, env2.rootFolderId ≠ none → env2.hasEmbeddingModel = true →
      buildIndex env2 st' = (.ok (.inProgress st'.store.indexedAt), st') := by
  have hflag : st'.isIndexing = true := by
    unfold buildIndex at h
    rw [if_neg hroot] at h
    rw [if_neg (by simp [hmodel])] at h
    rw [if_neg (by simp [hidle])] at h
    split at h
    · cases h; rfl
    · split at h
      · cases h; rfl
      · cases h
  refine ⟨hflag, fun env2 hroot2 hmodel2 => ?_⟩
  unfold buildIndex
  rw [if_neg hroot2, if_neg (by simp [hmodel2]), if_pos (by simp [hflag])]

/-- Witness for C9: after a failed listing the flag is stuck and the next
call reports `indexing_in_progress`. -/
theorem buildIndex_flag_leak_witness :
    (⟨⟨[], none⟩, true⟩ : ServerState).isIndexing = true ∧
    buildIndex envListFail ⟨⟨[], none⟩, true⟩ =
      (.ok (.inProgress none), ⟨⟨[], none⟩, true⟩) := by
  have h := buildIndex_flag_leak envListFail stEmpty "boom" ⟨⟨[], none⟩, true⟩
    (by simp [envListFail]) rfl rfl rfl
  exact ⟨h.1, h.2 envListFail (by simp [envListFail]) rfl⟩

/-! ### C1: aggregation takes the maximum chunk similarity -/

theorem insertChunk_ids (acc : List DocEntry) (c : ScoredChunk) :
    (insertChunk acc c).map (fun d => d.id) =
      if c.item.fileId ∈ acc.map (fun d => d.id) then acc.map (fun d => d.id)
      else acc.map (fun d => d.id) ++ [c.item.fileId] := by
  induction acc with
  | nil => simp [insertChunk, mkDocEntry]
  | cons d ds ih =>
    by_cases hid : d.id = c.item.fileId
    · by_cases hsc : d.score < c.similarity <;>
        simp [insertChunk, hid, hsc]
    · have hid' : ¬ c.item.fileId = d.id := fun h => hid h.symm
      simp only [insertChunk, if_neg hid, List.map_cons, ih]
      by_cases hmem : c.item.fileId ∈ ds.map (fun d => d.id) <;>
        simp [hmem, hid']

theorem insertChunk_ids_nodup (acc : List DocEntry) (c : ScoredChunk)
    (hnd : (acc.map (fun d => d.id)).Nodup) :
    ((insertChunk acc c).map (fun d => d.id)).Nodup := by
  rw [insertChunk_ids]
  by_cases hmem : c.item.fileId ∈ acc.map (fun d => d.id)
  · rwa [if_pos hmem]
  · rw [if_neg hmem]
    simp [List.nodup_append, hnd, hmem]

theorem insertChunk_cases (acc : List DocEntry) (c : ScoredChunk)
    (hnd : (acc.map (fun d => d.id)).Nodup) :
    ∀ d' ∈ insertChunk acc c,
      (d' ∈ acc ∧ d'.id ≠ c.item.fileId) ∨
      (d' ∈ acc ∧ d'.id = c.item.fileId ∧ c.similarity ≤ d'.score) ∨
      (∃ d ∈ acc, d.id = c.item.fileId ∧ d.score < c.similarity ∧
        d' = { d with score := c.similarity, bestSnippet := c.item.text.take 260 }) ∨
      (d' = mkDocEntry c ∧ c.item.fileId ∉ acc.map (fun d => d.id)) := by
  induction acc with
  | nil =>
    intro d' hd'
    simp only [insertChunk, List.mem_singleton] at hd'
    exact Or.inr (Or.inr (Or.inr ⟨hd', by simp⟩))
  | cons d ds ih =>
    intro d' hd'
    rw [List.map_cons, List.nodup_cons] at hnd
    by_cases hid : d.id = c.item.fileId
    · simp only [insertChunk, if_pos hid] at hd'
      have htail : ∀ x ∈ ds, x.id ≠ c.item.fileId := by
        intro x hx hcon
        exact hnd.1 (by rw [hid, ← hcon]; exact List.mem_map_of_mem _ hx)
      by_cases hsc : d.score < c.similarity
      · rw [if_pos hsc] at hd'
        rcases List.mem_cons.mp hd' with h | h
        · exact Or.inr (Or.inr (Or.inl ⟨d, List.mem_cons_self d ds, hid, hsc, h⟩))
        · exact Or.inl ⟨List.mem_cons_of_mem d h, htail d' h⟩
      · rw [if_neg hsc] at hd'
        rcases List.mem_cons.mp hd' with h | h
        · subst h
          exact Or.inr (Or.inl ⟨List.mem_cons_self d' ds, hid, le_of_not_lt hsc⟩)
        · exact Or.inl ⟨List.mem_cons_of_mem d h, htail d' h⟩
    · simp only [insertChunk, if_neg hid] at hd'
      rcases List.mem_cons.mp hd' with h | h
      · subst h
        exact Or.inl ⟨List.mem_cons_self d' ds, hid⟩
      · rcases ih hnd.2 d' h with ⟨h1, h2⟩ | ⟨h1, h2⟩ | ⟨d0, h1, h2⟩ | ⟨h1, h2⟩
        · exact Or.inl ⟨List.mem_cons_of_mem d h1, h2⟩
        · exact Or.inr (Or.inl ⟨List.mem_cons_of_mem d h1, h2⟩)
        · exact Or.inr (Or.inr (Or.inl ⟨d0, List.mem_cons_of_mem d h1, h2⟩))
        · refine Or.inr (Or.inr (Or.inr ⟨h1, ?_⟩))
          simp only [List.map_cons, List.mem_cons, not_or]
          exact ⟨fun hk => hid hk.symm, h2⟩

theorem aggregateDocs_spec (l : List ScoredChunk) :
    ((aggregateDocs l).map (fun d => d.id)).Nodup ∧
    (∀ ch ∈ l, ch.item.fileId ∈ (aggregateDocs l).map (fun d => d.id)) ∧
    (∀ d ∈ aggregateDocs l,
      (∃ c ∈ l, c.item.fileId = d.id ∧ c.similarity = d.score ∧
        d.bestSnippet = c.item.text.take 260) ∧
      (∀ c ∈ l, c.item.fileId = d.id → c.similarity ≤ d.score)) := by
  induction l using List.reverseRecOn with
  | nil => simp [aggregateDocs]
  | append_singleton l c ih =>
    obtain ⟨hnd, hcomp, hmax⟩ := ih
    have hagg : aggregateDocs (l ++ [c]) = insertChunk (aggregateDocs l) c := by
      simp [aggregateDocs, List.foldl_append]
    have hidmem : ∀ k, k ∈ (insertChunk (aggregateDocs l) c).map (fun d => d.id) ↔
        (k ∈ (aggregateDocs l).map (fun d => d.id) ∨ k = c.item.fileId) := by
      intro k
      rw [insertChunk_ids]
      by_cases hmem : c.item.fileId ∈ (aggregateDocs l).map (fun d => d.id)
      · rw [if_pos hmem]
        constructor
        · exact fun h => Or.inl h
        · rintro (h | rfl)
          · exact h
          · exact hmem
      · rw [if_neg hmem]
        simp
    refine ⟨?_, ?_, ?_⟩
    · rw [hagg]
      exact insertChunk_ids_nodup _ _ hnd
    · intro ch hch
      rw [hagg, hidmem]
      rcases List.mem_append.mp hch with h | h
      · exact Or.inl (hcomp ch h)
      · rw [List.mem_singleton.mp h]
        exact Or.inr rfl
    · intro d' hd'
      rw [hagg] at hd'
      rcases insertChunk_cases _ c hnd d' hd' with
        ⟨h1, h2⟩ | ⟨h1, h2, h3⟩ | ⟨d0, h1, h2, h3, h4⟩ | ⟨h1, h2⟩
      · obtain ⟨⟨c0, hc0, hc0id, hc0s, hc0sn⟩, hb⟩ := hmax d' h1
        refine ⟨⟨c0, List.mem_append_left _ hc0, hc0id, hc0s, hc0sn⟩, ?_⟩
        intro c1 hc1 hc1id
        rcases List.mem_append.mp hc1 with h | h
        · exact hb c1 h hc1id
        · rw [List.mem_singleton.mp h] at hc1id
          exact absurd hc1id.symm h2
      · obtain ⟨⟨c0, hc0, hc0id, hc0s, hc0sn⟩, hb⟩ := hmax d' h1
        refine ⟨⟨c0, List.mem_append_left _ hc0, hc0id, hc0s, hc0sn⟩, ?_⟩
        intro c1 hc1 hc1id
        rcases List.mem_append.mp hc1 with h | h
        · exact hb c1 h hc1id
        · rw [List.mem_singleton.mp h]
          exact h3
      · obtain ⟨_, hb⟩ := hmax d0 h1
        subst h4
        refine ⟨⟨c, List.mem_append_right _ (List.mem_singleton_self c), by simpa using h2.symm,
          rfl, rfl⟩, ?_⟩
        intro c1 hc1 hc1id
        rcases List.mem_append.mp hc1 with h | h
        · have hle := hb c1 h (by simpa using hc1id)
          have hlt : d0.score < c.similarity := h3
          calc c1.similarity ≤ d0.score := hle
            _ ≤ c.similarity := le_of_lt hlt
        · rw [List.mem_singleton.mp h]
      · subst h1
        refine ⟨⟨c, List.mem_append_right _ (List.mem_singleton_self c), rfl, rfl, rfl⟩, ?_⟩
        intro c1 hc1 hc1id
        have hc1id' : c1.item.fileId = c.item.fileId := by simpa [mkDocEntry] using hc1id
        rcases List.mem_append.mp hc1 with h | h
        · exact absurd (hc1id' ▸ hcomp c1 h) h2
        · rw [List.mem_singleton.mp h]
          simp [mkDocEntry]

/-- Claim C1: for every index state and query vector, each document returned
by `semanticSearch`'s retrieval step carries as aggregated score the
**maximum** cosine similarity among that document's retrieved top-K chunks
(never the average), that maximum is attained by a retrieved chunk whose text
has the document's `bestSnippet` as a prefix, and the reported score is the
4-decimal rounding of exactly that maximum. -/
theorem retrieved_score_is_max_chunk_similarity (st : VectorStore) (qVec : List ℝ)
    (minSim : ℝ) (a : Archivo) (ha : a ∈ retrieve st qVec minSim) :
    ∃ d ∈ aggregateDocs (st.search qVec TOPK_CHUNKS),
      a.id = d.id ∧ a.score = round4 d.score ∧
      (∃ c ∈ st.search qVec TOPK_CHUNKS, c.item.fileId = d.id ∧
        c.similarity = d.score ∧ d.bestSnippet <+: c.item.text) ∧
      (∀ c ∈ st.search qVec TOPK_CHUNKS, c.item.fileId = d.id → c.similarity ≤ d.score) := by
  unfold retrieve archivosOf at ha
  obtain ⟨d, hd, rfl⟩ := List.mem_map.mp ha
  have hd1 := List.mem_of_mem_take hd
  have hd2 := (List.mem_filter.mp hd1).1
  unfold sortedDocs at hd2
  have hd3 : d ∈ aggregateDocs (st.search qVec TOPK_CHUNKS) :=
    (List.perm_insertionSort scoreDesc _).mem_iff.mp hd2
  obtain ⟨⟨c, hc, hcid, hcs, hsnip⟩, hb⟩ := (aggregateDocs_spec _).2.2 d hd3
  exact ⟨d, hd3, rfl, rfl, ⟨c, hc, hcid, hcs, hsnip ▸ List.take_prefix 260 c.item.text⟩, hb⟩

/-! ### Concrete evaluations of the retrieval pipeline -/

theorem cosine_unit : cosine [(1 : ℝ), 0] [1, 0] = 1 := by
  unfold cosine
  have hA : normSqA [(1 : ℝ), 0] [1, 0] = 1 := by norm_num [normSqA]
  have hB : normSqB [(1 : ℝ), 0] [1, 0] = 1 := by norm_num [normSqB]
  have hD : dotPrefix [(1 : ℝ), 0] [1, 0] = 1 := by norm_num [dotPrefix]
  rw [hA, hB, hD, Real.sqrt_one]
  norm_num

theorem search_storeU :
    VectorStore.search storeU [(1 : ℝ), 0] TOPK_CHUNKS = [⟨itemU, 1⟩] := by
  have hv : itemU.vector = [(1 : ℝ), 0] := rfl
  show (List.insertionSort simDesc
    (storeU.items.map fun it => ⟨it, cosine [(1 : ℝ), 0] it.vector⟩)).take TOPK_CHUNKS = _
  have hitems : storeU.items = [itemU] := rfl
  rw [hitems, List.map_cons, List.map_nil, hv, cosine_unit]
  exact rfl

theorem retrieve_storeU (t : ℝ) (ht : t ≤ 1) :
    retrieve storeU [(1 : ℝ), 0] t = [toArchivo entryU] := by
  unfold retrieve sortedDocs
  rw [search_storeU]
  have hagg : aggregateDocs [(⟨itemU, 1⟩ : ScoredChunk)] = [entryU] := rfl
  rw [hagg]
  have hsort : List.insertionSort scoreDesc [entryU] = [entryU] := rfl
  rw [hsort]
  unfold archivosOf
  have hpos : decide (t ≤ entryU.score) = true := by
    have h1 : entryU.score = 1 := rfl
    rw [h1]
    exact decide_eq_true ht
  simp [List.filter_cons, hpos, TOPK_DOCS]

theorem cosine512 : cosine [(3 : ℝ), 4] [5, 12] = 63/65 := by
  unfold cosine
  have hA : normSqA [(3 : ℝ), 4] [5, 12] = 25 := by norm_num [normSqA]
  have hB : normSqB [(3 : ℝ), 4] [5, 12] = 169 := by norm_num [normSqB]
  have hD : dotPrefix [(3 : ℝ), 4] [5, 12] = 63 := by norm_num [dotPrefix]
  have h5 : Real.sqrt 25 = 5 := by
    rw [Real.sqrt_eq_iff_mul_self_eq_of_pos (by norm_num)]
    norm_num
  have h13 : Real.sqrt 169 = 13 := by
    rw [Real.sqrt_eq_iff_mul_self_eq_of_pos (by norm_num)]
    norm_num
  rw [hA, hB, hD, h5, h13]
  norm_num

theorem search_store512 :
    VectorStore.search store512 [(3 : ℝ), 4] TOPK_CHUNKS = [⟨item512, 63/65⟩] := by
  have hv : item512.vector = [(5 : ℝ), 12] := rfl
  show (List.insertionSort simDesc
    (store512.items.map fun it => ⟨it, cosine [(3 : ℝ), 4] it.vector⟩)).take TOPK_CHUNKS = _
  have hitems : store512.items = [item512] := rfl
  rw [hitems, List.map_cons, List.map_nil, hv, cosine512]
  exact rfl

theorem retrieve_store512 :
    retrieve store512 [(3 : ℝ), 4] (63/65) = [toArchivo entry512] := by
  unfold retrieve sortedDocs
  rw [search_store512]
  have hagg : aggregateDocs [(⟨item512, 63/65⟩ : ScoredChunk)] = [entry512] := rfl
  rw [hagg]
  have hsort : List.insertionSort scoreDesc [entry512] = [entry512] := rfl
  rw [hsort]
  unfold archivosOf
  have hpos : decide ((63 : ℝ)/65 ≤ entry512.score) = true := by
    have h1 : entry512.score = 63/65 := rfl
    rw [h1]
    exact decide_eq_true le_rfl
  simp [List.filter_cons, hpos, TOPK_DOCS]

theorem round4_63_65 : round4 ((63 : ℝ)/65) = 9692/10000 := by
  unfold round4
  have hr : round (((63 : ℝ)/65) * 10000) = 9692 := by
    rw [round_eq]
    rw [show ((63 : ℝ)/65) * 10000 + 1/2 = 252013/26 by norm_num]
    rw [Int.floor_eq_iff]
    constructor <;> norm_num
  rw [hr]
  norm_num

/-- Witness for C1: in a one-chunk store matching the query exactly, the
returned document carries that chunk's similarity as the maximum. -/
theorem retrieved_score_is_max_witness :
    ∃ d ∈ aggregateDocs (VectorStore.search storeU [(1 : ℝ), 0] TOPK_CHUNKS),
      (toArchivo entryU).id = d.id ∧ (toArchivo entryU).score = round4 d.score ∧
      (∃ c ∈ VectorStore.search storeU [(1 : ℝ), 0] TOPK_CHUNKS, c.item.fileId = d.id ∧
        c.similarity = d.score ∧ d.bestSnippet <+: c.item.text) ∧
      (∀ c ∈ VectorStore.search storeU [(1 : ℝ), 0] TOPK_CHUNKS,
        c.item.fileId = d.id → c.similarity ≤ d.score) :=
  retrieved_score_is_max_chunk_similarity storeU [(1 : ℝ), 0] 0 (toArchivo entryU)
    (by rw [retrieve_storeU 0 (by norm_num)]; exact List.mem_singleton_self _)

/-! ### C4: threshold filtering and monotonicity -/

theorem sorted_filter_eq_takeWhile (t : ℝ) (l : List DocEntry)
    (hs : l.Sorted scoreDesc) :
    l.filter (fun d => decide (t ≤ d.score)) = l.takeWhile (fun d => decide (t ≤ d.score)) := by
  induction l with
  | nil => rfl
  | cons d ds ih =>
    by_cases hd : t ≤ d.score
    · rw [List.filter_cons, List.takeWhile_cons, if_pos (decide_eq_true hd),
        if_pos (decide_eq_true hd), ih hs.of_cons]
    · rw [List.filter_cons, List.takeWhile_cons, if_neg (by simp [hd]), if_neg (by simp [hd])]
      apply List.filter_eq_nil_iff.mpr
      intro x hx
      have hxle : x.score ≤ d.score := List.rel_of_sorted_cons hs x hx
      simp only [decide_eq_true_eq]
      intro hcon
      have hdlt : d.score < t := not_le.mp hd
      linarith

theorem takeWhile_mono_of_imp {α : Type} (p q : α → Bool)
    (himp : ∀ x, p x = true → q x = true) (l : List α) :
    l.takeWhile p <+: l.takeWhile q := by
  induction l with
  | nil => simp
  | cons a l ih =>
    by_cases hpa : p a = true
    · rw [List.takeWhile_cons, List.takeWhile_cons, if_pos hpa, if_pos (himp a hpa)]
      exact List.cons_prefix_cons.mpr ⟨rfl, ih⟩
    · rw [List.takeWhile_cons, if_neg hpa]
      simp

theorem take_mono_of_pre {α : Type} {l1 l2 : List α} (h : l1 <+: l2) (n : Nat) :
    l1.take n <+: l2.take n := by
  obtain ⟨s, rfl⟩ := h
  rw [List.take_append_eq_append_take]
  exact ⟨s.take (n - l1.length), rfl⟩

/-- Claim C4: no document whose aggregated score is strictly below
`minSimilarity` appears in the result, and the result set is monotone in the
threshold: with the same index state, query vector and top-K limits, every
document returned at the larger threshold `t2` is also returned at any smaller
threshold `t1 < t2`. -/
theorem threshold_filter_and_monotone (st : VectorStore) (qVec : List ℝ)
    (t1 t2 : ℝ) (h12 : t1 < t2) :
    (∀ t : ℝ, ∀ a ∈ retrieve st qVec t,
      ∃ d ∈ sortedDocs (st.search qVec TOPK_CHUNKS), a.id = d.id ∧ t ≤ d.score) ∧
    (∀ a ∈ retrieve st qVec t2, a ∈ retrieve st qVec t1) := by
  constructor
  · intro t a ha
    unfold retrieve archivosOf at ha
    obtain ⟨d, hd, rfl⟩ := List.mem_map.mp ha
    have hd2 := List.mem_filter.mp (List.mem_of_mem_take hd)
    exact ⟨d, hd2.1, rfl, by simpa using hd2.2⟩
  · intro a ha
    have hs : (sortedDocs (st.search qVec TOPK_CHUNKS)).Sorted scoreDesc :=
      List.sorted_insertionSort scoreDesc _
    unfold retrieve archivosOf at ha ⊢
    rw [sorted_filter_eq_takeWhile t2 _ hs] at ha
    rw [sorted_filter_eq_takeWhile t1 _ hs]
    have hpre : (sortedDocs (st.search qVec TOPK_CHUNKS)).takeWhile
        (fun d => decide (t2 ≤ d.score)) <+:
        (sortedDocs (st.search qVec TOPK_CHUNKS)).takeWhile
        (fun d => decide (t1 ≤ d.score)) := by
      apply takeWhile_mono_of_imp
      intro x hx
      simp only [decide_eq_true_eq] at hx ⊢
      linarith
    exact ((take_mono_of_pre hpre TOPK_DOCS).map toArchivo).subset ha

/-- Witness for C4: with thresholds 1/2 < 7/10, the document admitted at the
higher threshold is also returned at the lower one. -/
theorem threshold_filter_and_monotone_witness :
    toArchivo entryU ∈ retrieve storeU [(1 : ℝ), 0] (1/2) :=
  (threshold_filter_and_monotone storeU [(1 : ℝ), 0] (1/2) (7/10) (by norm_num)).2
    (toArchivo entryU)
    (by rw [retrieve_storeU (7/10) (by norm_num)]; exact List.mem_singleton_self _)

/-! ### C10: rounding happens after the threshold comparison -/

/-- Claim C10: the threshold filter compares the unrounded aggregated score
against `minSimilarity`, and only the returned projection rounds to 4 decimal
places; consequently a returned document can report a score strictly below the
threshold that admitted it (store with chunk score 63/65 at threshold 63/65:
the reported score 0.9692 is strictly smaller). -/
theorem filter_unrounded_then_round (st : VectorStore) (qVec : List ℝ) (t : ℝ) :
    (∀ a ∈ retrieve st qVec t,
      ∃ d ∈ sortedDocs (st.search qVec TOPK_CHUNKS),
        a.id = d.id ∧ t ≤ d.score ∧ a.score = round4 d.score) ∧
    (∃ (st' : VectorStore) (q' : List ℝ) (t' : ℝ) (a : Archivo),
      a ∈ retrieve st' q' t' ∧ a.score < t') := by
  constructor
  · intro a ha
    unfold retrieve archivosOf at ha
    obtain ⟨d, hd, rfl⟩ := List.mem_map.mp ha
    have hd2 := List.mem_filter.mp (List.mem_of_mem_take hd)
    exact ⟨d, hd2.1, rfl, by simpa using hd2.2, rfl⟩
  · refine ⟨store512, [3, 4], 63/65, toArchivo entry512, ?_, ?_⟩
    · rw [retrieve_store512]
      exact List.mem_singleton_self _
    · show round4 entry512.score < 63/65
      have h1 : entry512.score = 63/65 := rfl
      rw [h1, round4_63_65]
      norm_num

/-- Witness for C10: the concrete admitted document of `store512`. -/
theorem filter_unrounded_then_round_witness :
    ∃ d ∈ sortedDocs (VectorStore.search store512 [(3 : ℝ), 4] TOPK_CHUNKS),
      (toArchivo entry512).id = d.id ∧ (63 : ℝ)/65 ≤ d.score ∧
      (toArchivo entry512).score = round4 d.score :=
  (filter_unrounded_then_round store512 [(3 : ℝ), 4] (63/65)).1 (toArchivo entry512)
    (by rw [retrieve_store512]; exact List.mem_singleton_self _)

/-! ### C5: the chunk-count formula -/

theorem jsSlice_length (l : List Char) (s e : Nat) :
    (jsSlice l s e).length = min e l.length - s := by
  simp [jsSlice]

theorem jsSlice_sub (l : List Char) (s e : Nat) : jsSlice l s e <:+: l := by
  have htp := List.take_prefix e l
  exact (List.drop_suffix s (l.take e)).isInfix.trans htp.isInfix

theorem jsTrim_sub (l : List Char) : jsTrim l <:+: l := by
  unfold jsTrim
  have h1 : l.dropWhile isWs <:+ l := List.dropWhile_suffix isWs
  have h2 : (l.dropWhile isWs).reverse.dropWhile isWs <:+ (l.dropWhile isWs).reverse :=
    List.dropWhile_suffix isWs
  have h3 : ((l.dropWhile isWs).reverse.dropWhile isWs).reverse <+: l.dropWhile isWs := by
    have := List.reverse_prefix.mpr h2
    simpa using this
  exact h3.isInfix.trans h1.isInfix

theorem noAdjWs_sub {l l' : List Char} (h : NoAdjWs l) (hs : l' <:+: l) : NoAdjWs l' :=
  List.Chain'.infix h hs

theorem collapseWsAux_true_head (l : List Char) :
    collapseWsAux true l = [] ∨
      ∃ c t, collapseWsAux true l = c :: t ∧ isWs c = false := by
  induction l with
  | nil => exact Or.inl rfl
  | cons c rest ih =>
    by_cases hc : isWs c = true
    · simpa [collapseWsAux, hc] using ih
    · exact Or.inr ⟨c, collapseWsAux false rest, by simp [collapseWsAux, hc],
        by simpa using hc⟩

theorem collapseWsAux_noAdj (l : List Char) : ∀ prev, NoAdjWs (collapseWsAux prev l) := by
  induction l with
  | nil =>
    intro prev
    simp [collapseWsAux, NoAdjWs]
  | cons c rest ih =>
    intro prev
    by_cases hc : isWs c = true
    · cases prev with
      | true => simpa [collapseWsAux, hc] using ih true
      | false =>
        rw [show collapseWsAux false (c :: rest) = ' ' :: collapseWsAux true rest by
          simp [collapseWsAux, hc]]
        unfold NoAdjWs
        rw [List.chain'_cons']
        refine ⟨?_, ih true⟩
        intro b hb
        rcases collapseWsAux_true_head rest with hnil | ⟨c', t', heq, hnw⟩
        · rw [hnil] at hb
          simp at hb
        · rw [heq] at hb
          simp only [List.head?_cons, Option.mem_def, Option.some.injEq] at hb
          subst hb
          simp [hnw]
    · rw [show collapseWsAux prev (c :: rest) = c :: collapseWsAux false rest by
        simp [collapseWsAux, hc]]
      unfold NoAdjWs
      rw [List.chain'_cons']
      refine ⟨?_, ih false⟩
      intro b hb
      simp [hc]

theorem collapseWs_noAdj (l : List Char) : NoAdjWs (collapseWs l) :=
  collapseWsAux_noAdj l false

theorem jsTrim_ne_nil (l : List Char) (hnd : NoAdjWs l) (hl : 2 ≤ l.length) :
    jsTrim l ≠ [] := by
  intro hcon
  rw [jsTrim_eq_nil_iff] at hcon
  rcases l with _ | ⟨a, _ | ⟨b, rest⟩⟩
  · simp at hl
  · simp at hl
  · exact (List.chain'_cons.mp hnd).1 ⟨hcon a (by simp), hcon b (by simp)⟩

theorem chunkTextLoop_eq_base {clipped : List Char} {start : Nat}
    (hlt : start < clipped.length)
    (hend : clipped.length ≤ min (start + CHUNK_SIZE) clipped.length) :
    chunkTextLoop clipped start =
      if (jsTrim (jsSlice clipped start (min (start + CHUNK_SIZE) clipped.length))).isEmpty
      then [] else [jsTrim (jsSlice clipped start (min (start + CHUNK_SIZE) clipped.length))] := by
  rw [chunkTextLoop, if_pos hlt]
  exact if_pos hend

theorem chunkTextLoop_eq_step {clipped : List Char} {start : Nat}
    (hlt : start < clipped.length)
    (hend : ¬ clipped.length ≤ min (start + CHUNK_SIZE) clipped.length) :
    chunkTextLoop clipped start =
      (if (jsTrim (jsSlice clipped start (min (start + CHUNK_SIZE) clipped.length))).isEmpty
       then [] else [jsTrim (jsSlice clipped start (min (start + CHUNK_SIZE) clipped.length))]) ++
      chunkTextLoop clipped (max 0 (min (start + CHUNK_SIZE) clipped.length - CHUNK_OVERLAP)) := by
  rw [chunkTextLoop, if_pos hlt]
  exact if_neg hend

theorem chunkText_short (text : List Char)
    (h1 : jsTrim (collapseWs text) ≠ [])
    (h2 : (jsTrim (collapseWs text)).length ≤ CHUNK_SIZE) :
    chunkText text = [jsTrim (collapseWs text)] := by
  unfold chunkText
  set t := jsTrim (collapseWs text) with ht
  rw [if_neg (by simp [List.isEmpty_iff, h1])]
  have hclip : t.take MAX_TEXT_CHARS_PER_FILE = t :=
    List.take_of_length_le (le_trans h2 (by norm_num [CHUNK_SIZE, MAX_TEXT_CHARS_PER_FILE]))
  rw [hclip]
  have hlen : 0 < t.length := List.length_pos.mpr h1
  have hidem : jsTrim t = t := by
    rw [ht]
    exact jsTrim_idem (collapseWs text)
  have hmin : min (0 + CHUNK_SIZE) t.length = t.length :=
    Nat.min_eq_right (by simpa using h2)
  rw [chunkTextLoop_eq_base hlen (by rw [hmin])]
  rw [hmin]
  have hslice : jsSlice t 0 t.length = t := by
    simp [jsSlice]
  rw [hslice, hidem, if_neg (by simp [List.isEmpty_iff, h1])]

theorem chunkTextLoop_length (clipped : List Char) (hnd : NoAdjWs clipped) :
    ∀ n start, clipped.length - start = n → start < clipped.length →
      start + CHUNK_OVERLAP < clipped.length →
      (chunkTextLoop clipped start).length = (clipped.length - start + 799) / 950 := by
  intro n
  induction n using Nat.strong_induction_on with
  | _ n ih =>
    intro start hn hlt hov
    have hov' : start + 150 < clipped.length := by
      simpa [CHUNK_OVERLAP] using hov
    have hpiece : jsTrim (jsSlice clipped start
        (min (start + CHUNK_SIZE) clipped.length)) ≠ [] := by
      apply jsTrim_ne_nil _ (noAdjWs_sub hnd (jsSlice_sub _ _ _))
      rw [jsSlice_length]
      simp only [CHUNK_SIZE]
      omega
    by_cases hend : clipped.length ≤ min (start + CHUNK_SIZE) clipped.length
    · rw [chunkTextLoop_eq_base hlt hend]
      rw [if_neg (by simp [List.isEmpty_iff, hpiece])]
      have h1 : clipped.length ≤ start + 1100 := by
        simp only [CHUNK_SIZE] at hend
        omega
      simp only [List.length_cons, List.length_nil]
      omega
    · rw [chunkTextLoop_eq_step hlt hend]
      rw [if_neg (by simp [List.isEmpty_iff, hpiece])]
      have h1 : start + 1100 < clipped.length := by
        simp only [CHUNK_SIZE] at hend
        omega
      have harg : max 0 (min (start + CHUNK_SIZE) clipped.length - CHUNK_OVERLAP) =
          start + 950 := by
        simp only [CHUNK_SIZE, CHUNK_OVERLAP]
        omega
      rw [harg]
      have hrec := ih (clipped.length - (start + 950)) (by omega) (start + 950) rfl
        (by omega) (by simp only [CHUNK_OVERLAP]; omega)
      rw [List.length_append, hrec]
      simp only [List.length_cons, List.length_nil]
      omega

theorem mem_collapseWsAux_of_not_ws {c : Char} (hc : isWs c = false) :
    ∀ (l : List Char) (prev : Bool), c ∈ l → c ∈ collapseWsAux prev l := by
  intro l
  induction l with
  | nil =>
    intro prev h
    simp at h
  | cons a rest ih =>
    intro prev h
    rcases List.mem_cons.mp h with rfl | h
    · rw [show collapseWsAux prev (c :: rest) = c :: collapseWsAux false rest by
        simp [collapseWsAux, hc]]
      exact List.mem_cons_self c _
    · by_cases ha : isWs a = true
      · cases prev with
        | true =>
          rw [show collapseWsAux true (a :: rest) = collapseWsAux true rest by
            simp [collapseWsAux, ha]]
          exact ih true h
        | false =>
          rw [show collapseWsAux false (a :: rest) = ' ' :: collapseWsAux true rest by
            simp [collapseWsAux, ha]]
          exact List.mem_cons_of_mem _ (ih true h)
      · rw [show collapseWsAux prev (a :: rest) = a :: collapseWsAux false rest by
          simp [collapseWsAux, ha]]
        exact List.mem_cons_of_mem _ (ih false h)

theorem collapseWsAux_all_ws {l : List Char} (h : ∀ c ∈ l, isWs c = true) :
    collapseWsAux true l = [] := by
  induction l with
  | nil => rfl
  | cons a rest ih =>
    have ha := h a (by simp)
    rw [show collapseWsAux true (a :: rest) = collapseWsAux true rest by
      simp [collapseWsAux, ha]]
    exact ih fun c hc => h c (List.mem_cons_of_mem _ hc)

theorem jsTrim_collapse_nil_iff (text : List Char) :
    jsTrim (collapseWs text) = [] ↔ ∀ c ∈ text, isWs c = true := by
  constructor
  · intro h c hc
    by_contra hcw
    have hcf : isWs c = false := by simpa using hcw
    have hmem : c ∈ collapseWs text := mem_collapseWsAux_of_not_ws hcf text false hc
    have hws := (jsTrim_eq_nil_iff _).mp h c hmem
    simp [hcf] at hws
  · intro h
    cases text with
    | nil => rfl
    | cons a rest =>
      have ha := h a (by simp)
      have hrest : ∀ c ∈ rest, isWs c = true := fun c hc => h c (List.mem_cons_of_mem _ hc)
      have hcol : collapseWs (a :: rest) = [' '] := by
        rw [show collapseWs (a :: rest) = ' ' :: collapseWsAux true rest by
          simp [collapseWs, collapseWsAux, ha]]
        rw [collapseWsAux_all_ws hrest]
      rw [hcol]
      decide

/-- Claim C5: `chunkText` yields 0 chunks exactly for empty or whitespace-only
input, exactly 1 chunk when the normalised text is nonempty with length at
most `CHUNK_SIZE`, and `ceil((len − overlap) / (chunkSize − overlap))` chunks
when the normalised, clipped text (of length `len`) is longer than
`chunkSize`. -/
theorem chunkText_count (text : List Char) :
    (jsTrim (collapseWs text) = [] ↔ ∀ c ∈ text, isWs c = true) ∧
    (chunkText text).length =
      (if jsTrim (collapseWs text) = [] then 0
       else if ((jsTrim (collapseWs text)).take MAX_TEXT_CHARS_PER_FILE).length ≤ CHUNK_SIZE
       then 1
       else (((jsTrim (collapseWs text)).take MAX_TEXT_CHARS_PER_FILE).length - CHUNK_OVERLAP
          + (CHUNK_SIZE - CHUNK_OVERLAP) - 1) / (CHUNK_SIZE - CHUNK_OVERLAP)) := by
  refine ⟨jsTrim_collapse_nil_iff text, ?_⟩
  by_cases h0 : jsTrim (collapseWs text) = []
  · rw [if_pos h0]
    have hz : chunkText text = [] := by
      unfold chunkText
      rw [if_pos (by simp [List.isEmpty_iff, h0])]
    rw [hz]
    rfl
  · rw [if_neg h0]
    by_cases hsz : ((jsTrim (collapseWs text)).take MAX_TEXT_CHARS_PER_FILE).length ≤ CHUNK_SIZE
    · rw [if_pos hsz]
      have hlen : (jsTrim (collapseWs text)).length ≤ CHUNK_SIZE := by
        simp only [List.length_take, CHUNK_SIZE, MAX_TEXT_CHARS_PER_FILE] at *
        omega
      rw [chunkText_short text h0 hlen]
      rfl
    · rw [if_neg hsz]
      have hnd : NoAdjWs ((jsTrim (collapseWs text)).take MAX_TEXT_CHARS_PER_FILE) := by
        have h1 := collapseWs_noAdj text
        have h2 := noAdjWs_sub h1 (jsTrim_sub (collapseWs text))
        have htp := List.take_prefix MAX_TEXT_CHARS_PER_FILE (jsTrim (collapseWs text))
        exact noAdjWs_sub h2 htp.isInfix
      have hlen2 : CHUNK_SIZE <
          ((jsTrim (collapseWs text)).take MAX_TEXT_CHARS_PER_FILE).length :=
        not_le.mp hsz
      have hct : chunkText text =
          chunkTextLoop ((jsTrim (collapseWs text)).take MAX_TEXT_CHARS_PER_FILE) 0 := by
        unfold chunkText
        rw [if_neg (by simp [List.isEmpty_iff, h0])]
      have hloop := chunkTextLoop_length _ hnd
        (((jsTrim (collapseWs text)).take MAX_TEXT_CHARS_PER_FILE).length - 0) 0 rfl
        (by simp only [CHUNK_SIZE] at hlen2; omega)
        (by simp only [CHUNK_SIZE] at hlen2; simp only [CHUNK_OVERLAP]; omega)
      rw [hct, hloop]
      simp only [CHUNK_SIZE] at hlen2
      simp only [CHUNK_SIZE, CHUNK_OVERLAP]
      omega

/-! ### C6: the `overlap < chunkSize` invariant -/

theorem chunkLoopCfg_eq_base {cs ov : Nat} {clipped : List Char} {start fuel : Nat}
    (hlt : start < clipped.length)
    (hend : clipped.length ≤ min (start + cs) clipped.length) :
    chunkLoopCfg cs ov clipped start (fuel + 1) =
      some (if (jsTrim (jsSlice clipped start (min (start + cs) clipped.length))).isEmpty
        then [] else [jsTrim (jsSlice clipped start (min (start + cs) clipped.length))]) := by
  rw [chunkLoopCfg, if_pos hlt]
  exact if_pos hend

theorem chunkLoopCfg_eq_step {cs ov : Nat} {clipped : List Char} {start fuel : Nat}
    (hlt : start < clipped.length)
    (hend : ¬ clipped.length ≤ min (start + cs) clipped.length) :
    chunkLoopCfg cs ov clipped start (fuel + 1) =
      match chunkLoopCfg cs ov clipped (max 0 (min (start + cs) clipped.length - ov)) fuel with
      | none => none
      | some rest =>
        some ((if (jsTrim (jsSlice clipped start (min (start + cs) clipped.length))).isEmpty
          then [] else [jsTrim (jsSlice clipped start (min (start + cs) clipped.length))]) ++
          rest) := by
  rw [chunkLoopCfg, if_pos hlt]
  exact if_neg hend

theorem chunkLoopCfg_eq_done {cs ov : Nat} {clipped : List Char} {start fuel : Nat}
    (hlt : ¬ start < clipped.length) :
    chunkLoopCfg cs ov clipped start (fuel + 1) = some [] := by
  rw [chunkLoopCfg]
  exact if_neg hlt

theorem chunkLoopCfg_one_one_none :
    ∀ fuel, chunkLoopCfg 1 1 ('a' :: 'b' :: []) 0 fuel = none := by
  intro fuel
  induction fuel with
  | zero => rfl
  | succ fuel ih =>
    have hstep : chunkLoopCfg 1 1 ('a' :: 'b' :: []) 0 (fuel + 1) =
        match chunkLoopCfg 1 1 ('a' :: 'b' :: []) 0 fuel with
        | none => none
        | some rest => some ([('a' :: [])] ++ rest) := rfl
    rw [hstep, ih]

theorem chunkLoopCfg_terminates (cs ov : Nat) (hinv : ov < cs) (clipped : List Char) :
    ∀ n start, clipped.length - start = n →
      ∃ fuel out, chunkLoopCfg cs ov clipped start fuel = some out := by
  intro n
  induction n using Nat.strong_induction_on with
  | _ n ih =>
    intro start hn
    by_cases hlt : start < clipped.length
    · by_cases hend : clipped.length ≤ min (start + cs) clipped.length
      · exact ⟨1, _, chunkLoopCfg_eq_base hlt hend⟩
      · have hcs : start + cs < clipped.length := by omega
        obtain ⟨fuel, out, hf⟩ :=
          ih (clipped.length - max 0 (min (start + cs) clipped.length - ov)) (by omega)
            (max 0 (min (start + cs) clipped.length - ov)) rfl
        refine ⟨fuel + 1,
          (if (jsTrim (jsSlice clipped start (min (start + cs) clipped.length))).isEmpty
            then [] else [jsTrim (jsSlice clipped start (min (start + cs) clipped.length))])
            ++ out, ?_⟩
        rw [chunkLoopCfg_eq_step hlt hend, hf]
    · exact ⟨1, [], chunkLoopCfg_eq_done hlt⟩

/-- Claim C6 (amended): the code performs no startup check of
`overlap < chunkSize` — the two are hard-coded constants satisfying the
invariant, under which the sliding-window loop terminates on every input
(some fuel suffices); a configuration violating the invariant (here
`chunkSize = overlap = 1`) makes the request-time loop run forever on the
two-character input `"ab"`. -/
theorem chunk_invariant_hardcoded_not_checked :
    CHUNK_OVERLAP < CHUNK_SIZE ∧
    (∀ fuel, chunkLoopCfg 1 1 ('a' :: 'b' :: []) 0 fuel = none) ∧
    (∀ clipped start, ∃ fuel out,
      chunkLoopCfg CHUNK_SIZE CHUNK_OVERLAP clipped start fuel = some out) := by
  refine ⟨by norm_num [CHUNK_SIZE, CHUNK_OVERLAP], chunkLoopCfg_one_one_none, ?_⟩
  intro clipped start
  exact chunkLoopCfg_terminates CHUNK_SIZE CHUNK_OVERLAP
    (by norm_num [CHUNK_SIZE, CHUNK_OVERLAP]) clipped (clipped.length - start) start rfl

/-- Counterexample to C6 as stated: nothing fails fast at startup — with the
invariant-violating configuration `chunkSize = overlap = 1` the chunking loop
is entered at request time and is still running after 1000 iterations on the
input `"ab"`, while the hard-coded configuration finishes it with fuel 1. -/
theorem chunk_invariant_counterexample :
    chunkLoopCfg 1 1 ('a' :: 'b' :: []) 0 1000 = none ∧
    chunkLoopCfg CHUNK_SIZE CHUNK_OVERLAP ('a' :: 'b' :: []) 0 1 =
      some [('a' :: 'b' :: [])] :=
  ⟨chunkLoopCfg_one_one_none 1000, by decide⟩

/-! ### C3: an embedding failure aborts the whole pass -/

/-- Claim C3 (amended): if the embedding provider fails on some chunk during a
build pass, the entire pass aborts — `buildIndex` terminates with that error,
no new snapshot is installed (the previous `store` is kept untouched, only the
in-progress flag having been set), and the remaining documents are *not*
indexed this pass.  It is not the case that only the failing document is
excluded while the build completes. -/
theorem embed_failure_aborts_build (env : Env) (st : ServerState)
    (files : List DriveFile) (e : String)
    (hroot : env.rootFolderId ≠ none) (hmodel : env.hasEmbeddingModel = true)
    (hidle : st.isIndexing = false)
    (hl : env.listFiles = .ok files)
    (hb : buildLoop env files = .error e) :
    buildIndex env st = (.error e, { st with isIndexing := true }) := by
  unfold buildIndex
  rw [if_neg hroot, if_neg (show ¬env.hasEmbeddingModel = false by simp [hmodel]),
    if_neg (show ¬st.isIndexing = true by simp [hidle])]
  simp only [hl, hb]

theorem chunkText_hola : chunkText ('h' :: 'o' :: 'l' :: 'a' :: []) =
    [('h' :: 'o' :: 'l' :: 'a' :: [])] := by
  have hnorm : jsTrim (collapseWs ('h' :: 'o' :: 'l' :: 'a' :: [])) =
      ('h' :: 'o' :: 'l' :: 'a' :: []) := by decide
  rw [chunkText_short _ (by rw [hnorm]; simp) (by rw [hnorm]; decide), hnorm]

theorem buildLoop_envEmbedFail :
    buildLoop envEmbedFail (fileA :: fileB :: []) =
      .error "embedding_not_found_in_response" := by
  simp [buildLoop, embedChunks, embedText, envEmbedFail, chunkText_hola]

/-- Witness for C3 (amended): the concrete two-file environment whose
embedding provider fails. -/
theorem embed_failure_aborts_build_witness :
    buildIndex envEmbedFail stEmpty =
      (.error "embedding_not_found_in_response", ⟨⟨[], none⟩, true⟩) :=
  embed_failure_aborts_build envEmbedFail stEmpty (fileA :: fileB :: [])
    "embedding_not_found_in_response" (by simp [envEmbedFail]) rfl rfl rfl
    buildLoop_envEmbedFail

/-- Counterexample to C3 as stated: the build neither completes nor indexes
the remaining document `fileB`; the whole pass errors out and the previous
(empty) snapshot stays installed. -/
theorem embed_failure_counterexample :
    buildIndex envEmbedFail stEmpty =
      (.error "embedding_not_found_in_response", ⟨⟨[], none⟩, true⟩) ∧
    (buildIndex envEmbedFail stEmpty).2.store.items = [] := by
  have hb : buildIndex envEmbedFail stEmpty =
      (.error "embedding_not_found_in_response", ⟨⟨[], none⟩, true⟩) := by
    unfold buildIndex
    rw [if_neg (show ¬envEmbedFail.rootFolderId = none by simp [envEmbedFail]),
      if_neg (show ¬envEmbedFail.hasEmbeddingModel = false by simp [envEmbedFail]),
      if_neg (show ¬stEmpty.isIndexing = true by simp [stEmpty])]
    simp only [show envEmbedFail.listFiles = .ok (fileA :: fileB :: []) from rfl,
      buildLoop_envEmbedFail]
    rfl
  exact ⟨hb, by rw [hb]⟩

/-! ### C8: handler status codes -/

/-- Claim C8 (amended): the search handler answers 400 exactly for a missing
or empty `query` field; missing root, non-search intent, and an empty (or
just-failed-to-rebuild) index are all answered 200 with zero results; but it
answers 500 exactly when a well-formed query reaches `semanticSearch` with a
nonempty index and the query-side embedding call fails — so a provider
failure does produce a 5xx, contrary to the original claim. -/
theorem handler_status (env : Env) (st : ServerState) (q : Option (List Char)) :
    ((handlePost env st q).1.status = 400 ↔ (q = none ∨ q = some [])) ∧
    ((handlePost env st q).1.status = 500 ↔
      (∃ qs, q = some qs ∧ qs ≠ [] ∧ env.rootFolderId ≠ none ∧
        env.intent.shouldSearch = true ∧
        (afterAutoReindex env st).store.items.length ≠ 0 ∧
        ∃ e, embedText env (if env.intent.rewrittenQuery.isEmpty then jsTrim qs
              else env.intent.rewrittenQuery) = .error e)) ∧
    ((handlePost env st q).1.status = 200 ∨ (handlePost env st q).1.status = 400 ∨
      (handlePost env st q).1.status = 500) := by
  rcases q with _ | qs
  · refine ⟨?_, ?_, ?_⟩ <;> simp [handlePost, Response.status]
  by_cases hqe : qs = []
  · subst hqe
    refine ⟨?_, ?_, ?_⟩ <;> simp [handlePost, Response.status]
  by_cases hroot : env.rootFolderId = none
  · refine ⟨?_, ?_, ?_⟩ <;>
      simp [handlePost, Response.status, hqe, hroot, List.isEmpty_iff]
  by_cases hint : env.intent.shouldSearch = true
  · by_cases hemp : (afterAutoReindex env st).store.items.length = 0
    · refine ⟨?_, ?_, ?_⟩ <;>
        simp [handlePost, Response.status, hqe, hroot, hint, hemp, List.isEmpty_iff]
    · rcases hememb : embedText env (if env.intent.rewrittenQuery = []
          then jsTrim qs else env.intent.rewrittenQuery) with e | v
      · refine ⟨?_, ?_, ?_⟩ <;>
          simp [handlePost, Response.status, semanticSearch, hqe, hroot, hint, hemp,
            hememb, List.isEmpty_iff]
      · refine ⟨?_, ?_, ?_⟩ <;>
          simp [handlePost, Response.status, semanticSearch, hqe, hroot, hint, hemp,
            hememb, List.isEmpty_iff]
  · have hintf : env.intent.shouldSearch = false := by
      cases h : env.intent.shouldSearch
      · rfl
      · exact absurd h hint
    refine ⟨?_, ?_, ?_⟩ <;>
      simp [handlePost, Response.status, hqe, hroot, hintf, List.isEmpty_iff]

/-- Counterexample to C8 as stated: an embedding-provider failure on the
query, with a nonempty fresh index and a well-formed query, yields HTTP 500. -/
theorem handler_500_on_provider_failure :
    (handlePost envEmbedFail ⟨storeU, false⟩
      (some ('h' :: 'o' :: 'l' :: 'a' :: []))).1.status = 500 := rfl

end ServiceGcp
